import Mathlib

/-!
Verification of the cpool task-pool engine (cpool_task.hpp / cpool_task.cpp).

The development shallowly embeds the engine in three layers, each translated
from the source:

* a typed dispatch layer modelling `TaskManager::dispatch`, the three
  `TaskManager::dispatchCallback` overloads, the `invoke` resolver and the
  promise/future result channel;
* a worker-iteration layer modelling one pass of the loop each worker
  thread runs (spawned in `TaskManager::start`), plus `stop`, the
  destructor, and the joinability-based readiness loop of `start`;
* an interleaving machine for the whole pool (several workers, producers
  and `stop` running concurrently), with type-erased queued units named by
  the id of the Task they invoke.
-/

namespace CPool

/-- State of a one-shot result channel (the shared state behind a
`std::promise` / `std::future` pair): not yet fulfilled, fulfilled with a
computed value, or fulfilled with the exception that the packaged task
captured while running the wrapped call. -/
inductive FutureState (ε β : Type) where
  | pending : FutureState ε β
  | value : β → FutureState ε β
  | failure : ε → FutureState ε β
deriving DecidableEq, Repr

/-- A `std::future` handle: `valid` models `std::future::valid()`, false
for a default-constructed future and true for one obtained from
`packaged_task::get_future`. -/
structure Future (ε β : Type) where
  valid : Bool
  state : FutureState ε β
deriving DecidableEq, Repr

/-- The invalid future returned by the null-handle guard (`return {};`,
cpool_task.hpp lines 154, 182, 215, 245). -/
def invalidFuture (ε β : Type) : Future ε β := ⟨false, .pending⟩

/-- The valid, not-yet-fulfilled future obtained from
`newTask->get_future()` and handed back to the dispatching caller. -/
def pendingFuture (ε β : Type) : Future ε β := ⟨true, .pending⟩

/-- Invocation resolver, plain-callable overload (cpool_task.hpp lines
290-301) and function-pointer overload (lines 317-327): invoke the callable
directly with the arguments, whatever its result type. The captured
argument pack is modelled as one value `a`; a task body that throws is
modelled by an `Except`-valued result type with an `Except.error` branch. -/
def invoke {α ρ : Type} (f : α → ρ) (a : α) : ρ := f a

/-- Invocation resolver, member-pointer overload (cpool_task.hpp lines
303-314): `std::mem_fn(f)(instance, args...)` invokes the member through
the bound instance supplied as the first argument. -/
def invokeMember {γ α ρ : Type} (f : γ → α → ρ) (inst : γ) (a : α) : ρ :=
  f inst a

/-- Shared state of the future after a worker executed the packaged task
(`(*newTask)()`): the computed value is stored, or the thrown exception is
captured, into the promise. -/
def runTask {β ε : Type} (t : Unit → Except ε β) : FutureState ε β :=
  match t () with
  | .ok b => .value b
  | .error e => .failure e

/-- Extension of a task outcome to the future state it fulfills the result
channel with: a computed value yields `value`, a thrown exception yields
`failure`. -/
def outcomeState {β ε : Type} : Except ε β → FutureState ε β
  | .ok b => .value b
  | .error e => .failure e

/-- `TaskManager::dispatch` (cpool_task.hpp lines 144-169) applied to a
callable handle (`none` models a null handle, i.e. `function == nullptr`)
and the captured arguments. Returns the future handed back to the caller
together with the Task given to `pushTask` (`none` when nothing was
enqueued). On the non-null path the Task body is the lambda of lines
158-164: it computes `invoke(function, args...)` and the packaged task
delivers the result to the future upon return. -/
def dispatch {α β ε : Type} (f : Option (α → Except ε β)) (a : α) :
    Future ε β × Option (Unit → Except ε β) :=
  match f with
  | none => (invalidFuture ε β, none)
  | some fb => (pendingFuture ε β, some (fun _ => invoke fb a))

/-- Queue contents after a dispatch call went through
`TaskManager::pushTask` (cpool_task.hpp lines 271-283): unchanged when the
dispatcher bailed out on a null handle (nothing was pushed), grown by the
single type-erased unit otherwise. -/
def queueAfterDispatch {τ : Type} (q : List τ) (pushed : Option τ) : List τ :=
  match pushed with
  | none => q
  | some t => q ++ [t]

/-- `TaskManager::dispatchCallback`, free-callback overload (cpool_task.hpp
lines 171-198). The Task body (lines 186-193) computes
`result = invoke(function, args...)` and then calls `callback(result)`.
Besides the `std::future<void>`, the model returns the queued body as a
function producing the packaged outcome together with the list of values
the callback was invoked with, so callback invocations are observable. -/
def dispatchCallback {α β ε : Type} (f : Option (α → Except ε β))
    (cb : Option (β → Unit)) (a : α) :
    Future ε Unit × Option (Unit → Except ε Unit × List β) :=
  match f, cb with
  | some fb, some cbb =>
      (pendingFuture ε Unit, some (fun _ =>
        match invoke fb a with
        | .ok result => (Except.ok (cbb result), [result])
        | .error e => (Except.error e, [])))
  | _, _ => (invalidFuture ε Unit, none)

/-- `TaskManager::dispatchCallback`, overload for a free task callable with
a member-pointer callback bound to `instance` (cpool_task.hpp lines
203-231). The Task body (lines 219-226) computes
`result = invoke(function, args...)` and then
`invoke(callback, instance, result)`. -/
def dispatchCallbackFM {α β γ ε : Type} (f : Option (α → Except ε β))
    (cb : Option (γ → β → Unit)) (inst : γ) (a : α) :
    Future ε Unit × Option (Unit → Except ε Unit × List β) :=
  match f, cb with
  | some fb, some cbb =>
      (pendingFuture ε Unit, some (fun _ =>
        match invoke fb a with
        | .ok result => (Except.ok (invokeMember cbb inst result), [result])
        | .error e => (Except.error e, [])))
  | _, _ => (invalidFuture ε Unit, none)

/-- `TaskManager::dispatchCallback`, overload for a member-pointer task
callable and a member-pointer callback, both bound to `instance`
(cpool_task.hpp lines 233-261). The Task body (lines 249-256) computes
`result = invoke(function, instance, args...)` and then
`invoke(callback, instance, result)`. -/
def dispatchCallbackMM {α β γ ε : Type} (f : Option (γ → α → Except ε β))
    (cb : Option (γ → β → Unit)) (inst : γ) (a : α) :
    Future ε Unit × Option (Unit → Except ε Unit × List β) :=
  match f, cb with
  | some fb, some cbb =>
      (pendingFuture ε Unit, some (fun _ =>
        match invokeMember fb inst a with
        | .ok result => (Except.ok (invokeMember cbb inst result), [result])
        | .error e => (Except.error e, [])))
  | _, _ => (invalidFuture ε Unit, none)

/-- Observable outcome of running a queued `dispatchCallback` body: the
state the `std::future<void>` is fulfilled with, paired with the list of
values the callback was invoked with. -/
def runCbTask {β ε : Type} (t : Unit → Except ε Unit × List β) :
    FutureState ε Unit × List β :=
  match t () with
  | (.ok u, log) => (.value u, log)
  | (.error e, log) => (.failure e, log)

/-- Claim C1: for every callable `f` and arguments `a` accepted by
`dispatch` while the pool is running (the handle is non-null), the returned
future is valid and the Task that was pushed to the queue fulfills it, once
a worker executes the Task, with exactly `f` applied to `a` (the computed
value, or the failure the call raised); in particular a task returning the
integer 2 on input 1 yields a future whose result equals 2. -/
theorem dispatch_future_holds_application :
    (∀ (α β ε : Type) (f : α → Except ε β) (a : α),
      (dispatch (some f) a).1.valid = true ∧
      (dispatch (some f) a).2 = some (fun _ => invoke f a) ∧
      runTask (fun _ => invoke f a) = outcomeState (f a)) ∧
    (dispatch (some (fun _ : Int => (Except.ok 2 : Except Unit Int))) (1 : Int)
        |>.2.map runTask) = some (FutureState.value 2) := by
  constructor
  · intro α β ε f a
    refine ⟨rfl, rfl, ?_⟩
    cases h : f a <;> simp [runTask, invoke, outcomeState, h]
  · rfl

/-- Claim C4: dispatching a null callable handle creates no Task, enqueues
nothing, and synchronously returns an invalid future (`valid` is false),
observably distinguishable from the valid-but-pending future a successful
dispatch returns. -/
theorem dispatch_null_returns_invalid :
    (∀ (α β ε : Type) (a : α),
      @dispatch α β ε none a = (invalidFuture ε β, none) ∧
      (@dispatch α β ε none a).1.valid = false) ∧
    (∀ (α β ε : Type) (q : List (Unit → Except ε β)) (a : α),
      queueAfterDispatch q (@dispatch α β ε none a).2 = q) ∧
    (∀ (α β ε : Type) (f : α → Except ε β) (a : α),
      (dispatch (some f) a).1.valid = true ∧
      (dispatch (some f) a).1.state = FutureState.pending) :=
  ⟨fun _ _ _ _ => ⟨rfl, rfl⟩, fun _ _ _ _ _ => rfl, fun _ _ _ _ _ => ⟨rfl, rfl⟩⟩

/-- Claim C5: `dispatchCallback` with a null callback handle — even with a
valid task callable — creates no Task, enqueues nothing, performs no task
execution, and synchronously returns an invalid future, in the
free-callback overload as well as in both member-callback overloads. -/
theorem dispatchCallback_null_callback_invalid :
    (∀ (α β ε : Type) (f : α → Except ε β) (a : α),
      dispatchCallback (some f) none a = (invalidFuture ε Unit, none) ∧
      (dispatchCallback (some f) none a).1.valid = false ∧
      ∀ q : List (Unit → Except ε Unit × List β),
        queueAfterDispatch q (dispatchCallback (some f) none a).2 = q) ∧
    (∀ (α β γ ε : Type) (f : α → Except ε β) (inst : γ) (a : α),
      dispatchCallbackFM (some f) (none : Option (γ → β → Unit)) inst a
        = (invalidFuture ε Unit, none)) ∧
    (∀ (α β γ ε : Type) (f : γ → α → Except ε β) (inst : γ) (a : α),
      dispatchCallbackMM (some f) (none : Option (γ → β → Unit)) inst a
        = (invalidFuture ε Unit, none)) :=
  ⟨fun _ _ _ _ _ => ⟨rfl, rfl, fun _ => rfl⟩,
   fun _ _ _ _ _ _ _ => rfl,
   fun _ _ _ _ _ _ _ => rfl⟩

/-- Claim C3: for every `dispatchCallback` invocation whose Task a worker
runs, the callback runs at most once, only after the task callable has
returned a value, and only with that value; if the task callable raises a
failure, the failure is delivered to the returned future's failure channel
and the callback is never invoked. Stated for the free-callback overload
(body at cpool_task.hpp lines 186-193) and the member-task member-callback
overload (body at lines 249-256). -/
theorem dispatchCallback_callback_discipline :
    (∀ (α β ε : Type) (f : α → Except ε β) (cb : β → Unit) (a : α),
      (∀ r, (dispatchCallback (some f) (some cb) a).2.map runCbTask = some r →
        r.2.length ≤ 1) ∧
      (∀ b, f a = .ok b →
        (dispatchCallback (some f) (some cb) a).2.map runCbTask
          = some (FutureState.value (), [b])) ∧
      (∀ e, f a = .error e →
        (dispatchCallback (some f) (some cb) a).2.map runCbTask
          = some (FutureState.failure e, []))) ∧
    (∀ (α β γ ε : Type) (f : γ → α → Except ε β) (cb : γ → β → Unit)
        (inst : γ) (a : α),
      (∀ r, (dispatchCallbackMM (some f) (some cb) inst a).2.map runCbTask = some r →
        r.2.length ≤ 1) ∧
      (∀ b, f inst a = .ok b →
        (dispatchCallbackMM (some f) (some cb) inst a).2.map runCbTask
          = some (FutureState.value (), [b])) ∧
      (∀ e, f inst a = .error e →
        (dispatchCallbackMM (some f) (some cb) inst a).2.map runCbTask
          = some (FutureState.failure e, []))) := by
  constructor
  · intro α β ε f cb a
    have hok : ∀ b, f a = .ok b →
        (dispatchCallback (some f) (some cb) a).2.map runCbTask
          = some (FutureState.value (), [b]) := by
      intro b hb
      simp [dispatchCallback, runCbTask, invoke, hb]
    have herr : ∀ e, f a = .error e →
        (dispatchCallback (some f) (some cb) a).2.map runCbTask
          = some (FutureState.failure e, []) := by
      intro e he
      simp [dispatchCallback, runCbTask, invoke, he]
    refine ⟨?_, hok, herr⟩
    intro r hr
    cases h : f a with
    | ok b =>
      have h2 := hok b h
      rw [hr] at h2
      injection h2 with h2
      subst h2
      simp
    | error e =>
      have h2 := herr e h
      rw [hr] at h2
      injection h2 with h2
      subst h2
      simp
  · intro α β γ ε f cb inst a
    have hok : ∀ b, f inst a = .ok b →
        (dispatchCallbackMM (some f) (some cb) inst a).2.map runCbTask
          = some (FutureState.value (), [b]) := by
      intro b hb
      simp [dispatchCallbackMM, runCbTask, invokeMember, hb]
    have herr : ∀ e, f inst a = .error e →
        (dispatchCallbackMM (some f) (some cb) inst a).2.map runCbTask
          = some (FutureState.failure e, []) := by
      intro e he
      simp [dispatchCallbackMM, runCbTask, invokeMember, he]
    refine ⟨?_, hok, herr⟩
    intro r hr
    cases h : f inst a with
    | ok b =>
      have h2 := hok b h
      rw [hr] at h2
      injection h2 with h2
      subst h2
      simp
    | error e =>
      have h2 := herr e h
      rw [hr] at h2
      injection h2 with h2
      subst h2
      simp

/-- Claim C3 witness: concrete instances of the callback discipline, one
where the task succeeds (the callback receives exactly the task's value,
once) and one where the task fails (the failure reaches the future and the
callback is never invoked). -/
theorem dispatchCallback_callback_discipline_witness :
    ((fun n : Nat => (Except.ok (n + 1) : Except Unit Nat)) 4 = Except.ok 5 ∧
      (dispatchCallback (some (fun n : Nat => (Except.ok (n + 1) : Except Unit Nat)))
          (some (fun _ : Nat => ())) 4).2.map runCbTask
        = some (FutureState.value (), [5])) ∧
    ((fun _ : Nat => (Except.error 9 : Except Nat Nat)) 4 = Except.error 9 ∧
      (dispatchCallback (some (fun _ : Nat => (Except.error 9 : Except Nat Nat)))
          (some (fun _ : Nat => ())) 4).2.map runCbTask
        = some (FutureState.failure 9, [])) :=
  ⟨⟨rfl, (dispatchCallback_callback_discipline.1 Nat Nat Unit
      (fun n : Nat => Except.ok (n + 1)) (fun _ : Nat => ()) 4).2.1 5 rfl⟩,
   ⟨rfl, (dispatchCallback_callback_discipline.1 Nat Nat Nat
      (fun _ : Nat => Except.error 9) (fun _ : Nat => ()) 4).2.2 9 rfl⟩⟩

/-- State a single worker observes under the queue lock: the shared
`isRunning` flag, the queue of type-erased units
(`std::queue<std::function<void()>>`; `none` models an empty function
object, `some id` a unit invoking the Task named `id`), and the log of
Tasks executed so far, in execution order. -/
structure PoolState where
  isRunning : Bool
  tasks : List (Option Nat)
  log : List Nat
deriving DecidableEq, Repr

/-- Wait predicate of the worker loop (cpool_task.cpp lines 40-43): the
worker proceeds past `taskCond.wait` only when
`!isRunning || !tasks.empty()` holds. -/
def waitPred (s : PoolState) : Bool := !s.isRunning || !s.tasks.isEmpty

/-- One iteration of the worker loop body (cpool_task.cpp lines 33-59),
entered once the wait predicate lets the worker through. If the running
flag is observed cleared the worker returns (`none`; lines 45-48 —
regardless of the queue's contents). Otherwise it pops the front unit
(lines 49-51) and, when the unit passes the `task != nullptr` sanity check,
executes it (lines 53-58), appending the Task's id to the execution log; an
empty unit is skipped. An empty queue with the flag still set leaves the
state unchanged (the worker keeps waiting). -/
def workerIter (s : PoolState) : Option PoolState :=
  if s.isRunning = false then none
  else
    match s.tasks with
    | [] => some s
    | t :: rest =>
      match t with
      | some id => some ⟨s.isRunning, rest, s.log ++ [id]⟩
      | none => some ⟨s.isRunning, rest, s.log⟩

/-- Claim C2 counterexample: with shutdown requested and the queue still
holding a unit, the worker wakes (the wait predicate holds) and terminates
at once (cpool_task.cpp lines 45-48), so the loop does not terminate only
when the queue is observed empty — it terminates with a non-empty queue. -/
theorem workerIter_exits_with_nonempty_queue :
    waitPred ⟨false, [some 0], []⟩ = true ∧
    workerIter ⟨false, [some 0], []⟩ = none ∧
    (⟨false, [some 0], []⟩ : PoolState).tasks ≠ [] := by decide

/-- Claim C2 (amended): a worker's loop terminates exactly when it observes
the running flag cleared, regardless of the queue's contents; whenever the
worker wakes with the flag still set and the queue non-empty, it pops
exactly the front unit (removing it from the queue) and executes it when it
is a non-empty function object (`Option.toList` records the execution). -/
theorem workerIter_terminates_iff_stopped :
    (∀ s : PoolState, workerIter s = none ↔ s.isRunning = false) ∧
    (∀ (s : PoolState) (t : Option Nat) (rest : List (Option Nat)),
      s.isRunning = true → s.tasks = t :: rest →
      workerIter s = some ⟨true, rest, s.log ++ t.toList⟩) := by
  constructor
  · intro s
    cases hr : s.isRunning <;> cases ht : s.tasks <;>
      simp [workerIter, hr, ht]
    rename_i t rest
    cases t <;> simp
  · intro s t rest hr ht
    cases t <;> simp [workerIter, hr, ht]

/-- Claim C2 amended-theorem witness: the termination criterion and the
pop-and-execute behaviour at concrete states. -/
theorem workerIter_terminates_iff_stopped_witness :
    (workerIter ⟨false, [], []⟩ = none ↔
      (⟨false, [], []⟩ : PoolState).isRunning = false) ∧
    ((⟨true, [some 3], [7]⟩ : PoolState).isRunning = true ∧
      (⟨true, [some 3], [7]⟩ : PoolState).tasks = some 3 :: [] ∧
      workerIter ⟨true, [some 3], [7]⟩
        = some ⟨true, [], [7] ++ (some 3 : Option Nat).toList⟩) :=
  ⟨workerIter_terminates_iff_stopped.1 ⟨false, [], []⟩,
   rfl, rfl,
   workerIter_terminates_iff_stopped.2 ⟨true, [some 3], [7]⟩ (some 3) [] rfl rfl⟩

/-- Claim C10: a worker that dequeues an empty function object skips
invocation (the sanity check at cpool_task.cpp line 54 fails), removes the
unit from the queue, records no execution, and continues its loop — it
neither fails nor terminates on a null queued unit. -/
theorem workerIter_null_unit_skipped :
    ∀ (s : PoolState) (rest : List (Option Nat)),
      s.isRunning = true → s.tasks = none :: rest →
      workerIter s = some ⟨true, rest, s.log⟩ := by
  intro s rest hr ht
  simp [workerIter, hr, ht]

/-- Claim C10 witness: a null unit at the front of the queue is skipped at
a concrete state — the worker continues with the unit removed and the
execution log untouched. -/
theorem workerIter_null_unit_skipped_witness :
    (⟨true, [none, some 4], [1]⟩ : PoolState).isRunning = true ∧
    (⟨true, [none, some 4], [1]⟩ : PoolState).tasks = none :: [some 4] ∧
    workerIter ⟨true, [none, some 4], [1]⟩ = some ⟨true, [some 4], [1]⟩ :=
  ⟨rfl, rfl,
   workerIter_null_unit_skipped ⟨true, [none, some 4], [1]⟩ [some 4] rfl rfl⟩

/-- Progress of a spawned worker thread: handle just constructed (the OS
thread need not have started executing), executing the loop but not yet
inside `taskCond.wait`, blocked in `taskCond.wait`, or returned. -/
inductive ThreadPhase where
  | constructed
  | beforeWait
  | waitingOnCond
  | finished
deriving DecidableEq, Repr

/-- A `std::thread` handle for a spawned worker: how far the underlying
thread has progressed, and whether the handle was joined. -/
structure ThreadHandle where
  phase : ThreadPhase
  joined : Bool
deriving DecidableEq, Repr

/-- `std::thread::joinable()` for a handle constructed with a callable:
true from the moment of construction until the handle is joined,
independently of how far the underlying thread has progressed. -/
def joinable (t : ThreadHandle) : Bool := !t.joined

/-- Exit condition of the readiness loop in `TaskManager::start`
(cpool_task.cpp lines 70-74): `while (!newWorker.joinable()) yield();`
stops yielding, letting `start` move to the next worker, as soon as the
handle is joinable. -/
def startBarrierExits (t : ThreadHandle) : Bool := joinable t

/-- Claim C7 counterexample: a freshly constructed, unjoined worker handle
already satisfies the readiness-loop exit condition of `start` while its
thread has not begun waiting on the condition variable, so `start` can
return before any worker is waiting on the shared condition. -/
theorem startBarrier_exits_before_wait :
    startBarrierExits ⟨ThreadPhase.constructed, false⟩ = true ∧
    (⟨ThreadPhase.constructed, false⟩ : ThreadHandle).phase
      ≠ ThreadPhase.waitingOnCond := by decide

/-- Claim C7 (amended): the readiness loop in `start` only waits until each
spawned handle is joinable, which already holds for every unjoined handle —
from the instant of construction, before the worker has begun waiting on
the condition variable; a `stop()` issued immediately after `start()`
nevertheless loses no wake-up, because a worker entering its
predicate-checked wait after the flag was cleared passes the predicate,
observes `isRunning == false` and terminates instead of blocking. -/
theorem startBarrier_joinable_no_lost_wakeup :
    (∀ t : ThreadHandle, t.joined = false → startBarrierExits t = true) ∧
    (∀ s : PoolState, s.isRunning = false →
      waitPred s = true ∧ workerIter s = none) := by
  constructor
  · intro t ht
    simp [startBarrierExits, joinable, ht]
  · intro s hs
    simp [waitPred, workerIter, hs]

/-- Claim C7 amended-theorem witness: a just-constructed handle passes the
readiness loop, and a worker observing the cleared flag wakes and
terminates, at concrete states. -/
theorem startBarrier_joinable_no_lost_wakeup_witness :
    ((⟨ThreadPhase.constructed, false⟩ : ThreadHandle).joined = false ∧
      startBarrierExits ⟨ThreadPhase.constructed, false⟩ = true) ∧
    ((⟨false, [], []⟩ : PoolState).isRunning = false ∧
      waitPred ⟨false, [], []⟩ = true ∧ workerIter ⟨false, [], []⟩ = none) :=
  ⟨⟨rfl, startBarrier_joinable_no_lost_wakeup.1 ⟨ThreadPhase.constructed, false⟩ rfl⟩,
   ⟨rfl, startBarrier_joinable_no_lost_wakeup.2 ⟨false, [], []⟩ rfl⟩⟩

/-- Whole-manager state used by `stop` and the destructor: the running
flag, the queued units, and the spawned worker handles. -/
structure MgrState where
  isRunning : Bool
  tasks : List (Option Nat)
  workers : List ThreadHandle
deriving DecidableEq, Repr

/-- `TaskManager::stop` (cpool_task.cpp lines 78-92): under the queue lock,
clear `isRunning` and `notify_all` — one atomic step of the model — then
join every still-joinable worker handle (lines 86-91); a join returns once
the thread finished and marks the handle joined. -/
def stop (s : MgrState) : MgrState :=
  { isRunning := false
    tasks := s.tasks
    workers := s.workers.map fun w =>
      if joinable w then ⟨ThreadPhase.finished, true⟩ else w }

/-- Joining the joinable handles of a list in which every handle is
already joined changes nothing (each `worker.joinable()` check at
cpool_task.cpp line 87 fails). -/
lemma joinAll_of_joined (l : List ThreadHandle) (h : ∀ w ∈ l, w.joined = true) :
    (l.map fun w =>
      if joinable w then (⟨ThreadPhase.finished, true⟩ : ThreadHandle) else w) = l := by
  induction l with
  | nil => rfl
  | cons a t ih =>
    have ha := h a (List.mem_cons_self a t)
    have ht := fun x hx => h x (List.mem_cons_of_mem a hx)
    have hja : joinable a = false := by simp [joinable, ha]
    simp [hja, ih ht]

/-- After `stop`, every spawned worker handle is joined. -/
lemma stop_joins_all (s : MgrState) : ∀ w ∈ (stop s).workers, w.joined = true := by
  intro w hw
  simp only [stop, List.mem_map] at hw
  obtain ⟨v, _, hv⟩ := hw
  by_cases hj : joinable v = true
  · rw [if_pos hj] at hv
    rw [← hv]
  · rw [if_neg hj] at hv
    rw [← hv]
    simpa [joinable] using hj

/-- `stop` on a pool whose flag is already cleared and whose workers are
already joined leaves the state unchanged. -/
lemma stop_of_stopped (s : MgrState) (hrun : s.isRunning = false)
    (hjoined : ∀ w ∈ s.workers, w.joined = true) : stop s = s := by
  cases s with
  | mk r t w =>
    simp only at hrun
    subst hrun
    simp only [stop]
    rw [joinAll_of_joined w hjoined]

/-- Claim C8: `stop` clears the running flag (set under the queue's lock
together with the `notify_all`, which the model makes a single atomic step)
and joins every spawned worker handle; the cleared flag wakes every waiting
worker and lets it terminate; and `stop` on an already-stopped pool (flag
already cleared, workers already joined) is a no-op apart from re-checking
joinability — the state is unchanged — and `stop` is idempotent in
general. -/
theorem stop_spec :
    (∀ s : MgrState, (stop s).isRunning = false ∧
      ∀ w ∈ (stop s).workers, w.joined = true) ∧
    (∀ (q : List (Option Nat)) (log : List Nat),
      waitPred ⟨false, q, log⟩ = true ∧ workerIter ⟨false, q, log⟩ = none) ∧
    (∀ s : MgrState, s.isRunning = false → (∀ w ∈ s.workers, w.joined = true) →
      stop s = s) ∧
    (∀ s : MgrState, stop (stop s) = stop s) := by
  refine ⟨fun s => ⟨rfl, stop_joins_all s⟩, fun q log => ⟨rfl, rfl⟩, stop_of_stopped, ?_⟩
  intro s
  exact stop_of_stopped (stop s) rfl (stop_joins_all s)

/-- Claim C8 witness: stopping a running two-worker pool clears the flag
and joins both workers; stopping the already-stopped pool leaves the state
unchanged. -/
theorem stop_spec_witness :
    ((stop ⟨true, [], [⟨ThreadPhase.waitingOnCond, false⟩,
        ⟨ThreadPhase.waitingOnCond, false⟩]⟩).isRunning = false ∧
      ∀ w ∈ (stop ⟨true, [], [⟨ThreadPhase.waitingOnCond, false⟩,
        ⟨ThreadPhase.waitingOnCond, false⟩]⟩).workers, w.joined = true) ∧
    ((⟨false, [], [⟨ThreadPhase.finished, true⟩]⟩ : MgrState).isRunning = false ∧
      (∀ w ∈ (⟨false, [], [⟨ThreadPhase.finished, true⟩]⟩ : MgrState).workers,
        w.joined = true) ∧
      stop ⟨false, [], [⟨ThreadPhase.finished, true⟩]⟩
        = ⟨false, [], [⟨ThreadPhase.finished, true⟩]⟩) :=
  ⟨stop_spec.1 ⟨true, [], [⟨ThreadPhase.waitingOnCond, false⟩,
      ⟨ThreadPhase.waitingOnCond, false⟩]⟩,
   by decide,
   by decide,
   stop_spec.2.2.1 ⟨false, [], [⟨ThreadPhase.finished, true⟩]⟩ rfl (by decide)⟩

/-- `TaskManager::~TaskManager` (cpool_task.cpp lines 21-27): if the pool
is still running, invoke `stop`; otherwise do nothing. -/
def destructor (s : MgrState) : MgrState :=
  if s.isRunning then stop s else s

/-- Claim C9: destroying a pool whose running flag is set performs the
implicit `stop` — the flag is cleared and every spawned worker is joined;
destroying an already-stopped pool performs no stop and leaves the state
untouched. -/
theorem destructor_spec :
    (∀ s : MgrState, s.isRunning = true →
      destructor s = stop s ∧ (destructor s).isRunning = false ∧
      ∀ w ∈ (destructor s).workers, w.joined = true) ∧
    (∀ s : MgrState, s.isRunning = false → destructor s = s) := by
  constructor
  · intro s hs
    have hd : destructor s = stop s := by simp [destructor, hs]
    exact ⟨hd, by rw [hd]; rfl, by rw [hd]; exact stop_joins_all s⟩
  · intro s hs
    simp [destructor, hs]

/-- Claim C9 witness: the destructor stops a concrete running pool and
leaves a concrete stopped pool untouched. -/
theorem destructor_spec_witness :
    ((⟨true, [], [⟨ThreadPhase.waitingOnCond, false⟩]⟩ : MgrState).isRunning = true ∧
      destructor ⟨true, [], [⟨ThreadPhase.waitingOnCond, false⟩]⟩
        = stop ⟨true, [], [⟨ThreadPhase.waitingOnCond, false⟩]⟩) ∧
    ((⟨false, [], [⟨ThreadPhase.finished, true⟩]⟩ : MgrState).isRunning = false ∧
      destructor ⟨false, [], [⟨ThreadPhase.finished, true⟩]⟩
        = ⟨false, [], [⟨ThreadPhase.finished, true⟩]⟩) :=
  ⟨⟨rfl, (destructor_spec.1 ⟨true, [], [⟨ThreadPhase.waitingOnCond, false⟩]⟩ rfl).1⟩,
   ⟨rfl, destructor_spec.2 ⟨false, [], [⟨ThreadPhase.finished, true⟩]⟩ rfl⟩⟩

/-- Control point of one worker in the interleaving model of the pool:
blocked in the wait (or between loop iterations), holding a popped Task and
executing it with the queue lock already released, or returned. -/
inductive WPc where
  | waiting
  | running (id : Nat)
  | done
deriving DecidableEq, Repr

/-- Global state of the pool under concurrent execution: the running flag,
the FIFO queue of queued Task ids (`pushTask` only ever enqueues a
non-empty closure invoking exactly one Task, so a queued unit is named by
the id of its Task), the control points of the workers, and three
histories — ids in successful-enqueue order, ids in pop order, and ids in
execution-start order. -/
structure MState where
  isRunning : Bool
  queue : List Nat
  ws : List WPc
  pushedLog : List Nat
  popLog : List Nat
  execLog : List Nat
deriving DecidableEq, Repr

/-- Ids of the Tasks currently held (popped, not yet finished) by some
worker. -/
def runningIds (ws : List WPc) : List Nat :=
  ws.filterMap fun p => match p with
    | .running id => some id
    | _ => none

/-- Interleaved atomic steps of the pool. `push` is a producer running
`pushTask` (cpool_task.cpp lines 271-283) under the queue lock with a Task
fresh for this pool; `exitW` is a worker observing the cleared flag and
returning (lines 45-48); `popW` is a worker popping the front unit under
the lock (lines 49-51); `execW` is a worker starting to execute, outside
any lock, the unit it holds (lines 53-58); `stopFlag` is `stop` clearing
the running flag under the lock (lines 81-84). -/
inductive MStep : MState → MState → Prop where
  | push (s : MState) (id : Nat) (hfresh : id ∉ s.pushedLog) :
      MStep s { s with queue := s.queue ++ [id],
                       pushedLog := s.pushedLog ++ [id] }
  | exitW (s : MState) (i : Nat) (hw : s.ws.get? i = some .waiting)
      (hrun : s.isRunning = false) :
      MStep s { s with ws := s.ws.set i .done }
  | popW (s : MState) (i : Nat) (id : Nat) (rest : List Nat)
      (hw : s.ws.get? i = some .waiting) (hrun : s.isRunning = true)
      (hq : s.queue = id :: rest) :
      MStep s { s with queue := rest, ws := s.ws.set i (.running id),
                       popLog := s.popLog ++ [id] }
  | execW (s : MState) (i : Nat) (id : Nat)
      (hw : s.ws.get? i = some (.running id)) :
      MStep s { s with ws := s.ws.set i .waiting,
                       execLog := s.execLog ++ [id] }
  | stopFlag (s : MState) :
      MStep s { s with isRunning := false }

/-- States reachable through the interleaved steps (reflexive-transitive
closure of `MStep`). -/
inductive Reach : MState → MState → Prop where
  | refl (s : MState) : Reach s s
  | tail {s t u : MState} : Reach s t → MStep t u → Reach s u

/-- Pool state right after `start()` spawned `n` workers: running flag set,
empty queue, every worker in its wait, empty histories. -/
def initState (n : Nat) : MState :=
  ⟨true, [], List.replicate n .waiting, [], [], []⟩

/-- Inductive invariant of the pool machine: the queue holds exactly the
pushed-but-not-yet-popped ids, in push order; the popped ids are exactly
the executed ones plus the ones workers currently hold; pushed ids are
pairwise distinct. -/
def PoolInv (s : MState) : Prop :=
  s.popLog ++ s.queue = s.pushedLog ∧
  (s.execLog ++ runningIds s.ws).Perm s.popLog ∧
  s.pushedLog.Nodup

/-- A waiting worker holds no Task. -/
@[simp] lemma runningIds_waiting : runningIds [WPc.waiting] = [] := rfl

/-- A returned worker holds no Task. -/
@[simp] lemma runningIds_done : runningIds [WPc.done] = [] := rfl

/-- A worker that popped Task `id` holds exactly that Task. -/
@[simp] lemma runningIds_running (id : Nat) :
    runningIds [WPc.running id] = [id] := rfl

/-- Held-Task ids of a worker list split at its head. -/
lemma runningIds_cons (p : WPc) (t : List WPc) :
    runningIds (p :: t) = runningIds [p] ++ runningIds t := by
  cases p <;> simp [runningIds]

/-- Setting one worker's control point trades that worker's held-Task
contribution for the new control point's contribution, up to
permutation. -/
lemma runningIds_set_perm (ws : List WPc) (i : Nat) (p q : WPc)
    (h : ws.get? i = some p) :
    (runningIds (ws.set i q) ++ runningIds [p]).Perm
      (runningIds ws ++ runningIds [q]) := by
  induction ws generalizing i with
  | nil => simp at h
  | cons a t ih =>
    cases i with
    | zero =>
      simp only [List.get?] at h
      injection h with h
      subst h
      clear ih
      have hset : (a :: t).set 0 q = q :: t := rfl
      rw [hset, runningIds_cons q t, runningIds_cons a t, List.perm_iff_count]
      intro x
      simp only [List.count_append]
      omega
    | succ n =>
      simp only [List.get?] at h
      have hper := ih n h
      have hset : (a :: t).set (n + 1) q = a :: t.set n q := rfl
      rw [hset, runningIds_cons a (t.set n q), runningIds_cons a t,
        List.perm_iff_count]
      rw [List.perm_iff_count] at hper
      intro x
      have hx := hper x
      simp only [List.count_append] at hx ⊢
      omega

/-- No worker of a freshly started pool holds a Task. -/
lemma runningIds_replicate_waiting (n : Nat) :
    runningIds (List.replicate n WPc.waiting) = [] := by
  induction n with
  | zero => rfl
  | succ k ih =>
    simp only [List.replicate, runningIds, List.filterMap_cons] at ih ⊢
    exact ih

/-- Every interleaved step preserves the pool invariant. -/
lemma PoolInv_step {s t : MState} (h : MStep s t) (hs : PoolInv s) : PoolInv t := by
  obtain ⟨h1, h2, h3⟩ := hs
  cases h with
  | push id hfresh =>
    refine ⟨?_, h2, ?_⟩
    · simp only [← h1, List.append_assoc]
    · rw [List.nodup_append]
      refine ⟨h3, List.nodup_singleton id, ?_⟩
      intro a ha hb
      rw [List.mem_singleton] at hb
      subst hb
      exact hfresh ha
  | exitW i hw hrun =>
    refine ⟨h1, ?_, h3⟩
    have hper := runningIds_set_perm s.ws i .waiting .done hw
    rw [List.perm_iff_count] at hper h2 ⊢
    intro x
    have ha := hper x
    have hb := h2 x
    simp only [List.count_append, runningIds_waiting, runningIds_done,
      runningIds_running, List.count_nil] at ha hb ⊢
    omega
  | popW i id rest hw hrun hq =>
    refine ⟨?_, ?_, h3⟩
    · rw [← h1, hq]
      simp
    · have hper := runningIds_set_perm s.ws i .waiting (.running id) hw
      rw [List.perm_iff_count] at hper h2 ⊢
      intro x
      have ha := hper x
      have hb := h2 x
      simp only [List.count_append, runningIds_waiting, runningIds_done,
      runningIds_running, List.count_nil] at ha hb ⊢
      omega
  | execW i id hw =>
    refine ⟨h1, ?_, h3⟩
    have hper := runningIds_set_perm s.ws i (.running id) .waiting hw
    rw [List.perm_iff_count] at hper h2 ⊢
    intro x
    have ha := hper x
    have hb := h2 x
    simp only [List.count_append, runningIds_waiting, runningIds_done,
      runningIds_running, List.count_nil] at ha hb ⊢
    omega
  | stopFlag =>
    exact ⟨h1, h2, h3⟩

/-- The pool invariant holds in every state reachable from a freshly
started pool. -/
lemma PoolInv_reach {s t : MState} (h : Reach s t) : PoolInv s → PoolInv t := by
  induction h with
  | refl => exact id
  | tail h1 h2 ih => exact fun hs => PoolInv_step h2 (ih hs)

/-- The pool invariant holds initially. -/
lemma PoolInv_init (n : Nat) : PoolInv (initState n) := by
  refine ⟨rfl, ?_, List.nodup_nil⟩
  simp [initState, runningIds_replicate_waiting]

/-- Claim C6 counterexample: with two workers, after dispatching Tasks 0
and then 1, worker 0 can pop Task 0, worker 1 can pop Task 1, and worker 1
can start executing before worker 0 does (execution happens outside the
queue lock), so the pool reaches a state whose execution-start order
`[1, 0]` differs from the successful-enqueue order `[0, 1]` — execution
order is not strict FIFO across the pool. -/
theorem pool_execution_not_fifo :
    Reach (initState 2)
      ⟨true, [], [WPc.waiting, WPc.waiting], [0, 1], [0, 1], [1, 0]⟩ ∧
    (⟨true, [], [WPc.waiting, WPc.waiting], [0, 1], [0, 1], [1, 0]⟩ : MState).execLog
      ≠ (⟨true, [], [WPc.waiting, WPc.waiting], [0, 1], [0, 1], [1, 0]⟩ : MState).pushedLog := by
  constructor
  · have h1 : MStep (initState 2)
        ⟨true, [0], [WPc.waiting, WPc.waiting], [0], [], []⟩ :=
      MStep.push (initState 2) 0 (by decide)
    have h2 : MStep ⟨true, [0], [WPc.waiting, WPc.waiting], [0], [], []⟩
        ⟨true, [0, 1], [WPc.waiting, WPc.waiting], [0, 1], [], []⟩ :=
      MStep.push _ 1 (by decide)
    have h3 : MStep ⟨true, [0, 1], [WPc.waiting, WPc.waiting], [0, 1], [], []⟩
        ⟨true, [1], [WPc.running 0, WPc.waiting], [0, 1], [0], []⟩ :=
      MStep.popW _ 0 0 [1] rfl rfl rfl
    have h4 : MStep ⟨true, [1], [WPc.running 0, WPc.waiting], [0, 1], [0], []⟩
        ⟨true, [], [WPc.running 0, WPc.running 1], [0, 1], [0, 1], []⟩ :=
      MStep.popW _ 1 1 [] rfl rfl rfl
    have h5 : MStep ⟨true, [], [WPc.running 0, WPc.running 1], [0, 1], [0, 1], []⟩
        ⟨true, [], [WPc.running 0, WPc.waiting], [0, 1], [0, 1], [1]⟩ :=
      MStep.execW _ 1 1 rfl
    have h6 : MStep ⟨true, [], [WPc.running 0, WPc.waiting], [0, 1], [0, 1], [1]⟩
        ⟨true, [], [WPc.waiting, WPc.waiting], [0, 1], [0, 1], [1, 0]⟩ :=
      MStep.execW _ 0 0 rfl
    exact Reach.tail (Reach.tail (Reach.tail (Reach.tail (Reach.tail
      (Reach.tail (Reach.refl (initState 2)) h1) h2) h3) h4) h5) h6
  · decide

/-- Claim C6 (amended): in every state the pool can reach from a fresh
start, units are removed from the queue in exactly successful-enqueue order
(the pop history followed by the current queue is the push history); every
dispatched Task is executed at most once and held by at most one worker at
a time, executed Tasks were dispatched, and no Task is lost or duplicated —
the dispatched Tasks are exactly the executed ones, the held ones and the
queued ones together; the execution start order across workers, however, may
differ from the enqueue order. -/
theorem pool_execution_safety :
    ∀ (n : Nat) (s : MState), Reach (initState n) s →
      (s.popLog ++ s.queue = s.pushedLog) ∧
      ((s.execLog ++ runningIds s.ws) ++ s.queue).Perm s.pushedLog ∧
      s.execLog.Nodup ∧
      (runningIds s.ws).Nodup ∧
      (∀ id ∈ s.execLog, id ∈ s.pushedLog) ∧
      (∀ id ∈ s.execLog, id ∉ runningIds s.ws) := by
  intro n s hreach
  obtain ⟨h1, h2, h3⟩ := PoolInv_reach hreach (PoolInv_init n)
  have hpop : s.popLog.Nodup := by
    rw [← h1, List.nodup_append] at h3
    exact h3.1
  have hexr : (s.execLog ++ runningIds s.ws).Nodup :=
    (h2.nodup_iff).mpr hpop
  have hexrsplit := List.nodup_append.mp hexr
  refine ⟨h1, ?_, hexrsplit.1, hexrsplit.2.1, ?_, ?_⟩
  · have hq := h2.append_right s.queue
    rw [h1] at hq
    exact hq
  · intro id hid
    have : id ∈ s.popLog := (h2.mem_iff).mp (List.mem_append_left _ hid)
    rw [← h1]
    exact List.mem_append_left _ this
  · intro id hid
    exact fun hid2 => hexrsplit.2.2 hid hid2

/-- Claim C6 amended-theorem witness: the safety conclusions at the state
reached by the counterexample-free prefix of one dispatch on a fresh
one-worker pool (here: the initial state itself, reached reflexively). -/
theorem pool_execution_safety_witness :
    (initState 1).popLog ++ (initState 1).queue = (initState 1).pushedLog ∧
    (((initState 1).execLog ++ runningIds (initState 1).ws)
        ++ (initState 1).queue).Perm (initState 1).pushedLog ∧
    (initState 1).execLog.Nodup ∧
    (runningIds (initState 1).ws).Nodup ∧
    (∀ id ∈ (initState 1).execLog, id ∈ (initState 1).pushedLog) ∧
    (∀ id ∈ (initState 1).execLog, id ∉ runningIds (initState 1).ws) :=
  pool_execution_safety 1 (initState 1) (Reach.refl (initState 1))

end CPool
